import Mathlib

/-!
Verification of the mdns-reflector packet-relay engine.

This file shallowly embeds the reflector's `handlePacket` pipeline and its
supporting data model.  The repository snapshot contains two revisions of the
pipeline:

* `src/unnamed/part_001` (the revision the unit tests compile against): it
  classifies a message strictly by the header `Response` flag and carries a
  per-packet `reflectedTo` set that deduplicates destinations across rules.
  It is embedded below as `MDNS.handlePacket`.
* `src/main.go`: an earlier revision without the `reflectedTo` set, whose
  type gate and discovery-window gate classify a message as a response when
  the header flag is set OR the answer section is non-empty.  It is embedded
  as `MDNS.handlePacketLegacy`.

Go maps are embedded as association lists with the zero-value-on-miss lookup
semantics of Go; `time.Time` is embedded as a `Nat` count of seconds; the
external DNS wire codec (miekg/dns `Msg.Pack`/`Msg.Unpack`), which the design
treats as an out-of-scope collaborator, is modelled by the executable
length-prefixed codec `encodeMsg`/`decodeMsg`, with `packMsg` fallible on
names that are not fully qualified or are overlong, mirroring the failure
modes of the real library.
-/

namespace MDNS

/-- Helper for the Go string functions: `leadsWith l p` is true iff `p` is a
leading chunk of `l`
(helper for the Go `strings` functions used by the reflector). -/
def leadsWith : List Char → List Char → Bool
  | _, [] => true
  | [], _ :: _ => false
  | c :: cs, d :: ds => c = d && leadsWith cs ds

/-- Go `strings.Contains` on the character lists of the two strings. -/
def strContainsL : List Char → List Char → Bool
  | [], sub => leadsWith [] sub
  | l@(_ :: cs), sub => leadsWith l sub || strContainsL cs sub

/-- Go `strings.Contains s sub`. -/
def strContains (s sub : String) : Bool := strContainsL s.data sub.data

/-- Go `strings.HasSuffix s suffix`. -/
def strEndsWith (s suffix : String) : Bool :=
  leadsWith s.data.reverse suffix.data.reverse

/-- A DNS question as used by the reflector: name, type and class.
Bit `0x8000` of the class field is the QU (unicast-response) bit. -/
structure Question where
  Name : String
  Qtype : Nat
  Qclass : Nat
deriving DecidableEq

/-- The part of a decoded DNS message the reflector reads: the header
response flag, the question section, and the answer-record names. -/
structure Msg where
  Response : Bool
  Question : List Question
  Answer : List String
deriving DecidableEq

/-- Type `Filter` from config.go: optional source-IP and service
allow-lists. -/
structure Filter where
  AllowedIPs : List String
  AllowedServices : List String
deriving DecidableEq

/-- Type `Rule` from config.go: source group, destination groups, filter and
optional message-type allow-list. -/
structure Rule where
  From : String
  To : List String
  Filter : Filter
  Types : List String
deriving DecidableEq

/-- Type `InterfaceConfig` from config.go. -/
structure InterfaceConfig where
  Name : String
  Group : String
deriving DecidableEq

/-- Type `Config` from config.go (the fields the relay engine reads). -/
structure Config where
  Interfaces : List InterfaceConfig
  Rules : List Rule
deriving DecidableEq

/-- Go map `map[string]string` lookup with zero-value `""` on a miss. -/
def lookupStr : List (String × String) → String → String
  | [], _ => ""
  | p :: rest, k => if p.1 = k then p.2 else lookupStr rest k

/-- Go map `map[string][]string` lookup with zero value `[]` on a miss. -/
def lookupGrp : List (String × List String) → String → List String
  | [], _ => []
  | p :: rest, k => if p.1 = k then p.2 else lookupGrp rest k

/-- Go map comma-ok lookup for `map[string]time.Time`. -/
def lookupTime : List (String × Nat) → String → Option Nat
  | [], _ => none
  | p :: rest, k => if p.1 = k then some p.2 else lookupTime rest k

/-- Go map assignment `m[k] = v` for `map[string]string`. -/
def setStr : List (String × String) → String → String → List (String × String)
  | [], k, v => [(k, v)]
  | p :: rest, k, v => if p.1 = k then (k, v) :: rest else p :: setStr rest k v

/-- Go map assignment `m[k] = v` for `map[string]time.Time`. -/
def setTime : List (String × Nat) → String → Nat → List (String × Nat)
  | [], k, v => [(k, v)]
  | p :: rest, k, v => if p.1 = k then (k, v) :: rest else p :: setTime rest k v

/-- Go `m[g] = append(m[g], n)` for `map[string][]string`. -/
def appendGrp : List (String × List String) → String → String →
    List (String × List String)
  | [], g, n => [(g, [n])]
  | p :: rest, g, n =>
    if p.1 = g then (p.1, p.2 ++ [n]) :: rest else p :: appendGrp rest g n

/-- The `Reflector` state (main.go / part_001): the configuration, the
interface-to-group and group-to-interfaces tables, and the per-interface
last-query timestamps (`recentQueries`). -/
structure Reflector where
  config : Config
  ifaceMap : List (String × String)
  groupMap : List (String × List String)
  recentQueries : List (String × Nat)
deriving DecidableEq

/-- Constructor `NewReflector` (part_001 lines 64-81): builds the topology
tables from
the configuration. -/
def NewReflector (cfg : Config) : Reflector :=
  { config := cfg
    ifaceMap := cfg.Interfaces.foldl (fun m i => setStr m i.Name i.Group) []
    groupMap := cfg.Interfaces.foldl (fun m i => appendGrp m i.Group i.Name) []
    recentQueries := [] }

/-- The QU-bit clearing loop (part_001 lines 185-191, main.go lines 152-158):
for every question whose class has bit `0x8000` set, clear it; the Bool
result is the `modified` flag. -/
def mutateQuestions : List Question → List Question × Bool
  | [] => ([], false)
  | q :: rest =>
    let r := mutateQuestions rest
    if q.Qclass &&& 0x8000 ≠ 0 then
      ({ q with Qclass := q.Qclass &&& 0x7FFF } :: r.1, true)
    else
      (q :: r.1, r.2)

/-- Length-prefixed encoding of a string (model of the wire codec). -/
def encodeStr (s : String) : List Nat := s.length :: s.data.map Char.toNat

/-- Encoding of one question (model of the wire codec). -/
def encodeQuestion (q : Question) : List Nat :=
  encodeStr q.Name ++ [q.Qtype, q.Qclass]

/-- Encoding of a message (model of the external wire codec). -/
def encodeMsg (m : Msg) : List Nat :=
  (cond m.Response 1 0) :: m.Question.length ::
    ((m.Question.map encodeQuestion).flatten ++
      m.Answer.length :: (m.Answer.map encodeStr).flatten)

/-- Decoding of a length-prefixed string, returning the remaining input. -/
def decodeStr : List Nat → Option (String × List Nat)
  | [] => none
  | n :: rest =>
    if n ≤ rest.length then
      some (String.mk ((rest.take n).map Char.ofNat), rest.drop n)
    else none

/-- Decoding of one question, returning the remaining input. -/
def decodeQuestion (l : List Nat) : Option (Question × List Nat) :=
  match decodeStr l with
  | none => none
  | some (s, rest) =>
    match rest with
    | t :: c :: rest2 => some (⟨s, t, c⟩, rest2)
    | _ => none

/-- Decoding of a counted sequence of questions. -/
def decodeQuestions : Nat → List Nat → Option (List Question × List Nat)
  | 0, l => some ([], l)
  | n + 1, l =>
    match decodeQuestion l with
    | none => none
    | some (q, rest) =>
      match decodeQuestions n rest with
      | none => none
      | some (qs, rest2) => some (q :: qs, rest2)

/-- Decoding of a counted sequence of strings. -/
def decodeStrs : Nat → List Nat → Option (List String × List Nat)
  | 0, l => some ([], l)
  | n + 1, l =>
    match decodeStr l with
    | none => none
    | some (s, rest) =>
      match decodeStrs n rest with
      | none => none
      | some (ss, rest2) => some (s :: ss, rest2)

/-- Decoding of a message (model of the external `Msg.Unpack`). -/
def decodeMsg : List Nat → Option Msg
  | r :: qn :: rest =>
    match decodeQuestions qn rest with
    | some (qs, an :: rest2) =>
      match decodeStrs an rest2 with
      | some (ans, _) => some ⟨r == 1, qs, ans⟩
      | none => none
    | _ => none
  | _ => none

/-- Wire validity of a question, mirroring the conditions under which the
external library's `Pack` succeeds: the name must be fully qualified
(dot-terminated) and at most 255 characters. -/
def validQuestion (q : Question) : Bool :=
  strEndsWith q.Name "." && decide (q.Name.length ≤ 255)

/-- Model of the external `Msg.Pack`: fails iff some question name is not
wire-valid, otherwise produces the encoding. -/
def packMsg (m : Msg) : Option (List Nat) :=
  if m.Question.all validQuestion then some (encodeMsg m) else none

/-- Derived type name of a message in the part_001 pipeline
(lines 205-208): strictly the header `Response` flag. -/
def typeNameOf (m : Msg) : String := if m.Response then "response" else "query"

/-- The `for _, t := range rule.Types` matching loop. -/
def typesMatch : List String → String → Bool
  | [], _ => false
  | t :: rest, tn => if t = tn then true else typesMatch rest tn

/-- Type gate (part_001 lines 210-221): if the rule declares a type list,
the derived type name must be a member. -/
def typeGate (rule : Rule) (m : Msg) : Bool :=
  if rule.Types.length > 0 then typesMatch rule.Types (typeNameOf m) else true

/-- The `for _, ip := range rule.Filter.AllowedIPs` matching loop;
`srcIP` is the printed form of the packet's source address
(the code compares `srcIP.String() == ip`). -/
def ipMatch : List String → String → Bool
  | [], _ => false
  | ip :: rest, src => if src = ip then true else ipMatch rest src

/-- IP gate (part_001 lines 223-235, main.go lines 191-203): if the rule's
filter declares an IP allow-list, the printed source address must equal
some entry. -/
def ipGate (rule : Rule) (srcIP : String) : Bool :=
  if rule.Filter.AllowedIPs.length > 0 then
    ipMatch rule.Filter.AllowedIPs srcIP
  else true

/-- Inner `for _, service := range ...` loop of the service gate:
does the question name contain some allow-listed substring? -/
def svcMatch : List String → String → Bool
  | [], _ => false
  | s :: rest, name => if strContains name s then true else svcMatch rest name

/-- Per-question body of the service gate (part_001 lines 240-253): the
allow-list substring match, then the plain-hostname / reverse-lookup
fallback (`.local.` with no underscore, or a reverse-arpa suffix). -/
def questionAllowed (services : List String) (q : Question) : Bool :=
  if svcMatch services q.Name then true
  else
    (strEndsWith q.Name ".local." && !(strContains q.Name "_")) ||
      strEndsWith q.Name ".in-addr.arpa." || strEndsWith q.Name ".ip6.arpa."

/-- The `for _, q := range msg.Question` loop of the service gate with its
early `break`. -/
def anyQuestionAllowed (services : List String) : List Question → Bool
  | [] => false
  | q :: rest =>
    if questionAllowed services q then true else anyQuestionAllowed services rest

/-- Service gate (part_001 lines 238-261, main.go lines 205-236): only
evaluated for queries (header flag unset) with a non-empty service
allow-list; at least one question must be allowed. -/
def serviceGate (rule : Rule) (m : Msg) : Bool :=
  if m.Response = false ∧ rule.Filter.AllowedServices.length > 0 then
    anyQuestionAllowed rule.Filter.AllowedServices m.Question
  else true

/-- The discovery-window read (part_001 lines 274-281): an entry must exist
and be at most 60 seconds old (`time.Since(lastQuery) > 60*time.Second`
causes a skip). -/
def windowOpen (rq : List (String × Nat)) (iface : String) (now : Nat) : Bool :=
  match lookupTime rq iface with
  | none => false
  | some t => decide (now - t ≤ 60)

/-- One recorded call of the egress forwarder: destination interface name
and the bytes handed to it. -/
structure ForwardCall where
  iface : String
  data : List Nat
deriving DecidableEq

/-- Destination-interface loop of one destination group (part_001 lines
265-294): skip the source interface and interfaces already reflected to
(`reflectedTo`, the `seen` list); responses into the `"users"` group are
additionally gated on the discovery window; admitted interfaces are added
to `seen` and forwarded to. -/
def reflectDests (srcIface : String) (m : Msg) (data : List Nat)
    (rq : List (String × Nat)) (now : Nat) (destGroup : String) :
    List String → List String → List String × List ForwardCall
  | [], seen => (seen, [])
  | d :: rest, seen =>
    if d = srcIface ∨ d ∈ seen then
      reflectDests srcIface m data rq now destGroup rest seen
    else if m.Response = true ∧ destGroup = "users" ∧ windowOpen rq d now = false then
      reflectDests srcIface m data rq now destGroup rest seen
    else
      let r := reflectDests srcIface m data rq now destGroup rest (d :: seen)
      (r.1, ⟨d, data⟩ :: r.2)

/-- Destination-group loop of one rule (part_001 lines 264-295). -/
def reflectGroups (r : Reflector) (srcIface : String) (m : Msg)
    (data : List Nat) (now : Nat) :
    List String → List String → List String × List ForwardCall
  | [], seen => (seen, [])
  | g :: rest, seen =>
    let a := reflectDests srcIface m data r.recentQueries now g
      (lookupGrp r.groupMap g) seen
    let b := reflectGroups r srcIface m data now rest a.1
    (b.1, a.2 ++ b.2)

/-- Rule loop of the part_001 pipeline (lines 199-296): source-group match,
type gate, IP gate, service gate, then the destination fan-out, threading
the per-packet `reflectedTo` set across rules. -/
def evalRules (r : Reflector) (srcIface srcGroup : String) (m : Msg)
    (srcIP : String) (data : List Nat) (now : Nat) :
    List Rule → List String → List String × List ForwardCall
  | [], seen => (seen, [])
  | rule :: rest, seen =>
    if rule.From ≠ srcGroup then
      evalRules r srcIface srcGroup m srcIP data now rest seen
    else if typeGate rule m = false then
      evalRules r srcIface srcGroup m srcIP data now rest seen
    else if ipGate rule srcIP = false then
      evalRules r srcIface srcGroup m srcIP data now rest seen
    else if serviceGate rule m = false then
      evalRules r srcIface srcGroup m srcIP data now rest seen
    else
      let a := reflectGroups r srcIface m data now rule.To seen
      let b := evalRules r srcIface srcGroup m srcIP data now rest a.1
      (b.1, a.2 ++ b.2)

/-- Function `Reflector.handlePacket` of src/unnamed/part_001
(lines 159-297):
look up the source group; for a query (header flag unset), record the
query time for the source interface and clear the QU bit of every
question, re-serializing on change (falling back to the original bytes if
re-serialization fails); then evaluate the rules.  Returns the new
reflector state and the sequence of forwarder calls. -/
def handlePacket (r : Reflector) (srcIface : String) (data : List Nat)
    (m : Msg) (srcIP : String) (now : Nat) : Reflector × List ForwardCall :=
  let srcGroup := lookupStr r.ifaceMap srcIface
  if m.Response = false then
    let rq := setTime r.recentQueries srcIface now
    let mq := mutateQuestions m.Question
    let m2 : Msg := { m with Question := mq.1 }
    let data2 :=
      if mq.2 then
        match packMsg m2 with
        | some nd => nd
        | none => data
      else data
    let r2 : Reflector := { r with recentQueries := rq }
    (r2, (evalRules r2 srcIface srcGroup m2 srcIP data2 now r2.config.Rules []).2)
  else
    (r, (evalRules r srcIface srcGroup m srcIP data now r.config.Rules []).2)

/-- Derived response classification of the legacy src/main.go pipeline
(line 172): `msg.Response || len(msg.Answer) > 0`. -/
def legacyIsResponse (m : Msg) : Bool :=
  m.Response || decide (m.Answer.length > 0)

/-- Type gate of the legacy pipeline (main.go lines 174-189), keyed on
`legacyIsResponse`. -/
def legacyTypeGate (rule : Rule) (m : Msg) : Bool :=
  if rule.Types.length > 0 then
    typesMatch rule.Types (if legacyIsResponse m then "response" else "query")
  else true

/-- Destination-interface loop of the legacy pipeline (main.go lines
240-266): no `reflectedTo` set; the window gate is keyed on
`legacyIsResponse`. -/
def legacyDests (srcIface : String) (m : Msg) (data : List Nat)
    (rq : List (String × Nat)) (now : Nat) (destGroup : String) :
    List String → List ForwardCall
  | [] => []
  | d :: rest =>
    if d = srcIface then
      legacyDests srcIface m data rq now destGroup rest
    else if legacyIsResponse m = true ∧ destGroup = "users" ∧
        windowOpen rq d now = false then
      legacyDests srcIface m data rq now destGroup rest
    else
      ⟨d, data⟩ :: legacyDests srcIface m data rq now destGroup rest

/-- Destination-group loop of the legacy pipeline (main.go lines 239-267). -/
def legacyGroups (r : Reflector) (srcIface : String) (m : Msg)
    (data : List Nat) (now : Nat) : List String → List ForwardCall
  | [] => []
  | g :: rest =>
    legacyDests srcIface m data r.recentQueries now g (lookupGrp r.groupMap g) ++
      legacyGroups r srcIface m data now rest

/-- Rule loop of the legacy pipeline (main.go lines 166-268). -/
def legacyRules (r : Reflector) (srcIface srcGroup : String) (m : Msg)
    (srcIP : String) (data : List Nat) (now : Nat) :
    List Rule → List ForwardCall
  | [] => []
  | rule :: rest =>
    if rule.From ≠ srcGroup then
      legacyRules r srcIface srcGroup m srcIP data now rest
    else if legacyTypeGate rule m = false then
      legacyRules r srcIface srcGroup m srcIP data now rest
    else if ipGate rule srcIP = false then
      legacyRules r srcIface srcGroup m srcIP data now rest
    else if serviceGate rule m = false then
      legacyRules r srcIface srcGroup m srcIP data now rest
    else
      legacyGroups r srcIface m data now rule.To ++
        legacyRules r srcIface srcGroup m srcIP data now rest

/-- Function `Reflector.handlePacket` of src/main.go (lines 139-269): same
query
recording and QU-bit mutation as part_001, but no per-packet destination
deduplication, and the type/window gates classify by `legacyIsResponse`. -/
def handlePacketLegacy (r : Reflector) (srcIface : String) (data : List Nat)
    (m : Msg) (srcIP : String) (now : Nat) : Reflector × List ForwardCall :=
  let srcGroup := lookupStr r.ifaceMap srcIface
  if m.Response = false then
    let rq := setTime r.recentQueries srcIface now
    let mq := mutateQuestions m.Question
    let m2 : Msg := { m with Question := mq.1 }
    let data2 :=
      if mq.2 then
        match packMsg m2 with
        | some nd => nd
        | none => data
      else data
    let r2 : Reflector := { r with recentQueries := rq }
    (r2, legacyRules r2 srcIface srcGroup m2 srcIP data2 now r2.config.Rules)
  else
    (r, legacyRules r srcIface srcGroup m srcIP data now r.config.Rules)

/-! ### Association-list map lemmas -/

theorem lookupTime_setTime_self (rq : List (String × Nat)) (k : String) (v : Nat) :
    lookupTime (setTime rq k v) k = some v := by
  induction rq with
  | nil => simp [setTime, lookupTime]
  | cons p rest ih =>
    by_cases h : p.1 = k
    · simp [setTime, lookupTime, h]
    · simp [setTime, lookupTime, h, ih]

theorem lookupTime_setTime_other (rq : List (String × Nat)) (k k2 : String)
    (v : Nat) (h : k2 ≠ k) :
    lookupTime (setTime rq k v) k2 = lookupTime rq k2 := by
  have h2 : ¬k = k2 := fun hh => h hh.symm
  induction rq with
  | nil => simp [setTime, lookupTime, h2]
  | cons p rest ih =>
    by_cases hp : p.1 = k
    · subst hp
      simp [setTime, lookupTime, h2]
    · simp only [setTime, if_neg hp]
      by_cases hq : p.1 = k2
      · simp [lookupTime, hq]
      · simp [lookupTime, hq, ih]

theorem lookupStr_of_absent (map : List (String × String)) (k : String)
    (h : ∀ p ∈ map, p.1 ≠ k) : lookupStr map k = "" := by
  induction map with
  | nil => rfl
  | cons p rest ih =>
    have hp : p.1 ≠ k := h p (List.mem_cons_self p rest)
    simp only [lookupStr, if_neg hp]
    exact ih fun q hq => h q (List.mem_cons_of_mem p hq)

/-! ### The state effect of handlePacket on the discovery-window map -/

theorem handlePacket_state (r : Reflector) (srcIface : String) (data : List Nat)
    (m : Msg) (srcIP : String) (now : Nat) :
    (handlePacket r srcIface data m srcIP now).1.recentQueries =
      if m.Response = false then setTime r.recentQueries srcIface now
      else r.recentQueries := by
  by_cases h : m.Response = false <;> simp [handlePacket, h]

/-- Claim C6: handling a query (header response flag unset) overwrites the
discovery-window timestamp of exactly the source interface with the current
time and leaves every other interface's entry unchanged; handling a response
leaves the map unchanged; no entry is ever deleted. -/
theorem handlePacket_discovery_window_frame (r : Reflector) (srcIface : String)
    (data : List Nat) (m : Msg) (srcIP : String) (now : Nat) :
    (m.Response = true →
        (handlePacket r srcIface data m srcIP now).1.recentQueries =
          r.recentQueries) ∧
      (m.Response = false →
        lookupTime (handlePacket r srcIface data m srcIP now).1.recentQueries
            srcIface = some now ∧
          ∀ k, k ≠ srcIface →
            lookupTime (handlePacket r srcIface data m srcIP now).1.recentQueries
                k = lookupTime r.recentQueries k) ∧
      ∀ k t, lookupTime r.recentQueries k = some t →
        ∃ u, lookupTime (handlePacket r srcIface data m srcIP now).1.recentQueries
            k = some u := by
  refine ⟨fun h => ?_, fun h => ⟨?_, fun k hk => ?_⟩, fun k t ht => ?_⟩
  · rw [handlePacket_state]; simp [h]
  · rw [handlePacket_state, if_pos h, lookupTime_setTime_self]
  · rw [handlePacket_state, if_pos h, lookupTime_setTime_other _ _ _ _ hk]
  · rw [handlePacket_state]
    by_cases h : m.Response = false
    · rw [if_pos h]
      by_cases hk : k = srcIface
      · subst hk; exact ⟨now, lookupTime_setTime_self _ _ _⟩
      · exact ⟨t, by rw [lookupTime_setTime_other _ _ _ _ hk]; exact ht⟩
    · rw [if_neg h]; exact ⟨t, ht⟩

/-- Witness for C6 at a concrete input. -/
theorem handlePacket_discovery_window_frame_witness :
    (handlePacket ⟨⟨[], []⟩, [], [], [("a", 3)]⟩ "i" [] ⟨true, [], []⟩ "ip"
        9).1.recentQueries = [("a", 3)] :=
  (handlePacket_discovery_window_frame ⟨⟨[], []⟩, [], [], [("a", 3)]⟩ "i" []
      ⟨true, [], []⟩ "ip" 9).1 rfl

/-! ### Claim C10: unknown source interface -/

theorem evalRules_skip_all (r : Reflector) (srcIface srcGroup : String)
    (m : Msg) (srcIP : String) (data : List Nat) (now : Nat) :
    ∀ (rules : List Rule) (seen : List String),
      (∀ rule ∈ rules, rule.From ≠ srcGroup) →
      evalRules r srcIface srcGroup m srcIP data now rules seen = (seen, []) := by
  intro rules
  induction rules with
  | nil => intro seen _; rfl
  | cons rule rest ih =>
    intro seen h
    have h1 : rule.From ≠ srcGroup := h rule (List.mem_cons_self rule rest)
    simp only [evalRules, if_pos h1]
    exact ih seen fun q hq => h q (List.mem_cons_of_mem rule hq)

/-- Claim C10: if the source interface does not appear in the topology table
(so its group lookup yields the Go zero value `""`) and every configured
rule's source group is non-empty, then rule evaluation admits no destination
and no forward occurs. -/
theorem handlePacket_unknown_source_no_forward (r : Reflector)
    (srcIface : String) (data : List Nat) (m : Msg) (srcIP : String) (now : Nat)
    (h1 : ∀ p ∈ r.ifaceMap, p.1 ≠ srcIface)
    (h2 : ∀ rule ∈ r.config.Rules, rule.From ≠ "") :
    (handlePacket r srcIface data m srcIP now).2 = [] := by
  have hg : lookupStr r.ifaceMap srcIface = "" := lookupStr_of_absent _ _ h1
  by_cases h : m.Response = false
  · simp only [handlePacket, if_pos h, hg]
    rw [evalRules_skip_all _ _ _ _ _ _ _ _ _ h2]
  · simp only [handlePacket, if_neg h, hg]
    rw [evalRules_skip_all _ _ _ _ _ _ _ _ _ h2]

/-- Witness for C10 at a concrete input: interface `"y"` is not in the
topology table and the only rule's source group is `"a"`. -/
theorem handlePacket_unknown_source_no_forward_witness :
    (∀ p ∈ [("x", "a")], Prod.fst p ≠ "y") ∧
      (∀ rule ∈ [(⟨"a", ["b"], ⟨[], []⟩, []⟩ : Rule)], Rule.From rule ≠ "") ∧
      (handlePacket
          ⟨⟨[], [⟨"a", ["b"], ⟨[], []⟩, []⟩]⟩, [("x", "a")], [("b", ["i2"])], []⟩
          "y" [1] ⟨false, [], []⟩ "ip" 0).2 = [] := by
  refine ⟨by decide, by decide, ?_⟩
  exact handlePacket_unknown_source_no_forward
    ⟨⟨[], [⟨"a", ["b"], ⟨[], []⟩, []⟩]⟩, [("x", "a")], [("b", ["i2"])], []⟩
    "y" [1] ⟨false, [], []⟩ "ip" 0 (by decide) (by decide)

/-! ### All forwards of one packet carry the same bytes -/

theorem reflectDests_data (srcIface : String) (m : Msg) (data : List Nat)
    (rq : List (String × Nat)) (now : Nat) (g : String) :
    ∀ (ifaces seen : List String),
      ∀ c ∈ (reflectDests srcIface m data rq now g ifaces seen).2,
        c.data = data := by
  intro ifaces
  induction ifaces with
  | nil => intro seen c hc; simp [reflectDests] at hc
  | cons d rest ih =>
    intro seen c hc
    simp only [reflectDests] at hc
    split at hc
    · exact ih seen c hc
    · split at hc
      · exact ih seen c hc
      · simp only [List.mem_cons] at hc
        rcases hc with h | h
        · rw [h]
        · exact ih (d :: seen) c h

theorem reflectGroups_data (r : Reflector) (srcIface : String) (m : Msg)
    (data : List Nat) (now : Nat) :
    ∀ (groups : List String) (seen : List String),
      ∀ c ∈ (reflectGroups r srcIface m data now groups seen).2,
        c.data = data := by
  intro groups
  induction groups with
  | nil => intro seen c hc; simp [reflectGroups] at hc
  | cons g rest ih =>
    intro seen c hc
    simp only [reflectGroups, List.mem_append] at hc
    rcases hc with h | h
    · exact reflectDests_data _ _ _ _ _ _ _ _ c h
    · exact ih _ c h

theorem evalRules_data (r : Reflector) (srcIface srcGroup : String) (m : Msg)
    (srcIP : String) (data : List Nat) (now : Nat) :
    ∀ (rules : List Rule) (seen : List String),
      ∀ c ∈ (evalRules r srcIface srcGroup m srcIP data now rules seen).2,
        c.data = data := by
  intro rules
  induction rules with
  | nil => intro seen c hc; simp [evalRules] at hc
  | cons rule rest ih =>
    intro seen c hc
    simp only [evalRules] at hc
    split at hc
    · exact ih seen c hc
    · split at hc
      · exact ih seen c hc
      · split at hc
        · exact ih seen c hc
        · split at hc
          · exact ih seen c hc
          · simp only [List.mem_append] at hc
            rcases hc with h | h
            · exact reflectGroups_data _ _ _ _ _ _ _ c h
            · exact ih _ c h

/-- Claim C4: if the QU-bit mutation changed at least one question and
re-serializing the mutated message fails, the packet is not dropped: the
original, unmodified ingress bytes are what every admitted destination
receives. -/
theorem handlePacket_pack_failure_uses_original (r : Reflector)
    (srcIface : String) (data : List Nat) (m : Msg) (srcIP : String) (now : Nat)
    (h1 : m.Response = false)
    (h2 : (mutateQuestions m.Question).2 = true)
    (h3 : packMsg { m with Question := (mutateQuestions m.Question).1 } = none) :
    ∀ c ∈ (handlePacket r srcIface data m srcIP now).2, c.data = data := by
  intro c hc
  simp only [handlePacket, if_pos h1, h2, h3, if_true] at hc
  exact evalRules_data _ _ _ _ _ _ _ _ _ c hc

/-- Witness for C4: the question name `"abc"` is not fully qualified, so
re-serialization of the mutated message fails, and the forwarded bytes are
the original `[9]`. -/
theorem handlePacket_pack_failure_uses_original_witness :
    (⟨false, [⟨"abc", 1, 0x8001⟩], []⟩ : Msg).Response = false ∧
      (mutateQuestions [⟨"abc", 1, 0x8001⟩]).2 = true ∧
      packMsg ⟨false, [⟨"abc", 1, 1⟩], []⟩ = none ∧
      ∀ c ∈ (handlePacket
          ⟨⟨[], [⟨"a", ["b"], ⟨[], []⟩, []⟩]⟩, [("i1", "a")], [("b", ["i2"])], []⟩
          "i1" [9] ⟨false, [⟨"abc", 1, 0x8001⟩], []⟩ "ip" 0).2, c.data = [9] :=
  ⟨rfl, by decide, by decide,
    handlePacket_pack_failure_uses_original
      ⟨⟨[], [⟨"a", ["b"], ⟨[], []⟩, []⟩]⟩, [("i1", "a")], [("b", ["i2"])], []⟩
      "i1" [9] ⟨false, [⟨"abc", 1, 0x8001⟩], []⟩ "ip" 0 rfl (by decide)
      (by decide)⟩

/-! ### Round-trip of the modelled wire codec -/

theorem map_ofNat_toNat : ∀ l : List Char, (l.map Char.toNat).map Char.ofNat = l
  | [] => rfl
  | c :: cs => by
    simp only [List.map_cons, Char.ofNat_toNat, map_ofNat_toNat cs]

theorem decodeStr_encodeStr (s : String) (t : List Nat) :
    decodeStr (encodeStr s ++ t) = some (s, t) := by
  obtain ⟨d⟩ := s
  have hlen : (d.map Char.toNat).length = String.length ⟨d⟩ := by
    simp [String.length]
  simp only [encodeStr, List.cons_append, decodeStr]
  rw [if_pos]
  · rw [List.take_left' hlen, List.drop_left' hlen, map_ofNat_toNat]
  · rw [List.length_append, hlen]
    exact Nat.le_add_right _ _

theorem decodeQuestion_encodeQuestion (q : Question) (t : List Nat) :
    decodeQuestion (encodeQuestion q ++ t) = some (q, t) := by
  simp only [encodeQuestion, List.append_assoc, decodeQuestion,
    decodeStr_encodeStr]
  rfl

theorem decodeQuestions_encode (qs : List Question) (t : List Nat) :
    decodeQuestions qs.length ((qs.map encodeQuestion).flatten ++ t) =
      some (qs, t) := by
  induction qs generalizing t with
  | nil => simp [decodeQuestions]
  | cons q rest ih =>
    simp only [List.map_cons, List.flatten_cons, List.length_cons,
      List.append_assoc, decodeQuestions, decodeQuestion_encodeQuestion, ih]

theorem decodeStrs_encode (ss : List String) (t : List Nat) :
    decodeStrs ss.length ((ss.map encodeStr).flatten ++ t) = some (ss, t) := by
  induction ss generalizing t with
  | nil => simp [decodeStrs]
  | cons s rest ih =>
    simp only [List.map_cons, List.flatten_cons, List.length_cons,
      List.append_assoc, decodeStrs, decodeStr_encodeStr, ih]

theorem decodeMsg_encodeMsg (m : Msg) : decodeMsg (encodeMsg m) = some m := by
  obtain ⟨resp, qs, ans⟩ := m
  have hd := decodeStrs_encode ans []
  rw [List.append_nil] at hd
  simp only [encodeMsg, decodeMsg, decodeQuestions_encode, hd]
  cases resp <;> rfl

/-! ### Properties of the QU-bit mutation -/

theorem mutateQuestions_all_valid : ∀ qs : List Question,
    (mutateQuestions qs).1.all validQuestion = qs.all validQuestion := by
  intro qs
  induction qs with
  | nil => rfl
  | cons q rest ih =>
    simp only [mutateQuestions]
    split
    · simp only [List.all_cons, ih]
      rfl
    · simp only [List.all_cons, ih]

theorem mutateQuestions_cleared : ∀ qs : List Question,
    ∀ q ∈ (mutateQuestions qs).1, q.Qclass &&& 0x8000 = 0 := by
  intro qs
  induction qs with
  | nil => intro q hq; simp [mutateQuestions] at hq
  | cons p rest ih =>
    intro q hq
    simp only [mutateQuestions] at hq
    split at hq
    · simp only [List.mem_cons] at hq
      rcases hq with h | h
      · rw [h]
        show (p.Qclass &&& 0x7FFF) &&& 0x8000 = 0
        rw [Nat.and_assoc, show (0x7FFF &&& 0x8000 : Nat) = 0 by decide,
          Nat.and_zero]
      · exact ih q h
    · simp only [List.mem_cons] at hq
      rcases hq with h | h
      · rw [h]
        omega
      · exact ih q h

theorem mutateQuestions_of_cleared : ∀ qs : List Question,
    (∀ q ∈ qs, q.Qclass &&& 0x8000 = 0) → mutateQuestions qs = (qs, false) := by
  intro qs
  induction qs with
  | nil => intro _; rfl
  | cons p rest ih =>
    intro h
    have hp : p.Qclass &&& 0x8000 = 0 := h p (List.mem_cons_self p rest)
    have hr : mutateQuestions rest = (rest, false) :=
      ih fun q hq => h q (List.mem_cons_of_mem p hq)
    simp [mutateQuestions, hp, hr]

theorem mutateQuestions_idem (qs : List Question) :
    mutateQuestions (mutateQuestions qs).1 = ((mutateQuestions qs).1, false) :=
  mutateQuestions_of_cleared _ (mutateQuestions_cleared qs)

/-- Claim C3: for a query with the QU bit set on at least one question and
wire-valid question names, the mutation is applied once, before rule
evaluation, and every forwarded copy decodes (via the modelled codec) to
the singly-mutated message, whose every question has the QU bit cleared. -/
theorem handlePacket_forwards_decode_cleared (r : Reflector)
    (srcIface : String) (data : List Nat) (m : Msg) (srcIP : String) (now : Nat)
    (h1 : m.Response = false)
    (h2 : m.Question.all validQuestion = true)
    (h3 : (mutateQuestions m.Question).2 = true) :
    (∀ q ∈ (mutateQuestions m.Question).1, q.Qclass &&& 0x8000 = 0) ∧
      ∀ c ∈ (handlePacket r srcIface data m srcIP now).2,
        decodeMsg c.data =
          some { m with Question := (mutateQuestions m.Question).1 } := by
  refine ⟨mutateQuestions_cleared m.Question, fun c hc => ?_⟩
  have hv : ({ m with Question := (mutateQuestions m.Question).1 } :
      Msg).Question.all validQuestion = true := by
    show (mutateQuestions m.Question).1.all validQuestion = true
    rw [mutateQuestions_all_valid]
    exact h2
  have hp : packMsg { m with Question := (mutateQuestions m.Question).1 } =
      some (encodeMsg { m with Question := (mutateQuestions m.Question).1 }) := by
    rw [packMsg, if_pos hv]
  simp only [handlePacket, if_pos h1, h3, hp, if_true] at hc
  have := evalRules_data _ _ _ _ _ _ _ _ _ c hc
  rw [this, decodeMsg_encodeMsg]

/-- Witness for C3: a QU-set `a.local.` query relayed from `users` to
`gl_iot`. -/
theorem handlePacket_forwards_decode_cleared_witness :
    (⟨false, [⟨"a.local.", 1, 0x8001⟩], []⟩ : Msg).Response = false ∧
      ([(⟨"a.local.", 1, 0x8001⟩ : Question)].all validQuestion = true) ∧
      (mutateQuestions [⟨"a.local.", 1, 0x8001⟩]).2 = true ∧
      ((∀ q ∈ (mutateQuestions [(⟨"a.local.", 1, 0x8001⟩ : Question)]).1,
          q.Qclass &&& 0x8000 = 0) ∧
        ∀ c ∈ (handlePacket
            ⟨⟨[], [⟨"users", ["gl_iot"], ⟨[], []⟩, []⟩]⟩, [("v10", "users")],
              [("gl_iot", ["v19"])], []⟩
            "v10" [9] ⟨false, [⟨"a.local.", 1, 0x8001⟩], []⟩ "ip" 0).2,
          decodeMsg c.data =
            some ⟨false, (mutateQuestions [⟨"a.local.", 1, 0x8001⟩]).1, []⟩) :=
  ⟨rfl, by decide, by decide,
    handlePacket_forwards_decode_cleared
      ⟨⟨[], [⟨"users", ["gl_iot"], ⟨[], []⟩, []⟩]⟩, [("v10", "users")],
        [("gl_iot", ["v19"])], []⟩
      "v10" [9] ⟨false, [⟨"a.local.", 1, 0x8001⟩], []⟩ "ip" 0 rfl (by decide)
      (by decide)⟩

/-- Claim C9: the QU-bit mutation is idempotent at the byte level.  A first
pass forwards the bytes `fp` (the re-serialization if anything changed,
otherwise the input bytes); feeding the first pass's output message and
bytes through the handler again mutates nothing and forwards exactly `fp`
to every destination. -/
theorem handlePacket_second_pass_identical (r r2 : Reflector)
    (srcIface : String) (data b : List Nat) (m : Msg) (srcIP : String)
    (now now2 : Nat) (h1 : m.Response = false)
    (hb : packMsg { m with Question := (mutateQuestions m.Question).1 } =
      some b) :
    mutateQuestions (mutateQuestions m.Question).1 =
        ((mutateQuestions m.Question).1, false) ∧
      (∀ c ∈ (handlePacket r srcIface data m srcIP now).2,
        c.data = if (mutateQuestions m.Question).2 then b else data) ∧
      ∀ c ∈ (handlePacket r2 srcIface
          (if (mutateQuestions m.Question).2 then b else data)
          { m with Question := (mutateQuestions m.Question).1 } srcIP now2).2,
        c.data = if (mutateQuestions m.Question).2 then b else data := by
  refine ⟨mutateQuestions_idem m.Question, fun c hc => ?_, fun c hc => ?_⟩
  · by_cases hmod : (mutateQuestions m.Question).2
    · simp only [handlePacket, if_pos h1, hmod, hb, if_true] at hc
      rw [evalRules_data _ _ _ _ _ _ _ _ _ c hc, if_pos hmod]
    · simp only [handlePacket, if_pos h1, hmod, if_false] at hc
      rw [evalRules_data _ _ _ _ _ _ _ _ _ c hc]
      simp [hmod]
  · have h2 : ({ m with Question := (mutateQuestions m.Question).1 } :
        Msg).Response = false := h1
    simp only [handlePacket, if_pos h2, mutateQuestions_idem, if_false] at hc
    exact evalRules_data _ _ _ _ _ _ _ _ _ c hc

/-- Witness for C9 at a concrete QU-set query. -/
theorem handlePacket_second_pass_identical_witness :
    (⟨false, [⟨"a.local.", 1, 0x8001⟩], []⟩ : Msg).Response = false ∧
      packMsg ⟨false, (mutateQuestions [⟨"a.local.", 1, 0x8001⟩]).1, []⟩ =
        some (encodeMsg ⟨false, [⟨"a.local.", 1, 1⟩], []⟩) ∧
      (mutateQuestions (mutateQuestions [(⟨"a.local.", 1, 0x8001⟩ :
            Question)]).1 =
          ((mutateQuestions [(⟨"a.local.", 1, 0x8001⟩ : Question)]).1, false) ∧
        (∀ c ∈ (handlePacket
            ⟨⟨[], [⟨"users", ["gl_iot"], ⟨[], []⟩, []⟩]⟩, [("v10", "users")],
              [("gl_iot", ["v19"])], []⟩ "v10" [9]
            ⟨false, [⟨"a.local.", 1, 0x8001⟩], []⟩ "ip" 0).2,
          c.data =
            if (mutateQuestions [(⟨"a.local.", 1, 0x8001⟩ : Question)]).2 then
              encodeMsg ⟨false, [⟨"a.local.", 1, 1⟩], []⟩
            else [9]) ∧
        ∀ c ∈ (handlePacket
            ⟨⟨[], [⟨"users", ["gl_iot"], ⟨[], []⟩, []⟩]⟩, [("v10", "users")],
              [("gl_iot", ["v19"])], []⟩ "v10"
            (if (mutateQuestions [(⟨"a.local.", 1, 0x8001⟩ : Question)]).2 then
              encodeMsg ⟨false, [⟨"a.local.", 1, 1⟩], []⟩
            else [9])
            ⟨false, (mutateQuestions [⟨"a.local.", 1, 0x8001⟩]).1, []⟩ "ip"
            7).2,
          c.data =
            if (mutateQuestions [(⟨"a.local.", 1, 0x8001⟩ : Question)]).2 then
              encodeMsg ⟨false, [⟨"a.local.", 1, 1⟩], []⟩
            else [9]) :=
  ⟨rfl, by decide,
    handlePacket_second_pass_identical
      ⟨⟨[], [⟨"users", ["gl_iot"], ⟨[], []⟩, []⟩]⟩, [("v10", "users")],
        [("gl_iot", ["v19"])], []⟩
      ⟨⟨[], [⟨"users", ["gl_iot"], ⟨[], []⟩, []⟩]⟩, [("v10", "users")],
        [("gl_iot", ["v19"])], []⟩
      "v10" [9] (encodeMsg ⟨false, [⟨"a.local.", 1, 1⟩], []⟩)
      ⟨false, [⟨"a.local.", 1, 0x8001⟩], []⟩ "ip" 0 7 rfl (by decide)⟩

/-! ### Claim C8: the IP gate -/

theorem ipMatch_iff (l : List String) (src : String) :
    ipMatch l src = true ↔ src ∈ l := by
  induction l with
  | nil => simp [ipMatch]
  | cons ip rest ih =>
    by_cases h : src = ip
    · simp [ipMatch, h]
    · simp [ipMatch, h, ih]

/-- Claim C8: a rule with a non-empty IP allow-list admits a packet iff the
printed source address is string-equal to some entry; an empty allow-list
imposes no restriction.  Moreover, under a single rule whose allow-list is
non-empty and does not contain the source address, no packet — query or
response alike — is forwarded. -/
theorem ipGate_admits_iff (rule : Rule) (srcIP : String) :
    (ipGate rule srcIP = true ↔
        rule.Filter.AllowedIPs = [] ∨ srcIP ∈ rule.Filter.AllowedIPs) ∧
      ∀ (r : Reflector) (srcIface : String) (data : List Nat) (m : Msg)
        (now : Nat),
        r.config.Rules = [rule] → srcIP ∉ rule.Filter.AllowedIPs →
        rule.Filter.AllowedIPs ≠ [] →
        (handlePacket r srcIface data m srcIP now).2 = [] := by
  have hiff : ipGate rule srcIP = true ↔
      rule.Filter.AllowedIPs = [] ∨ srcIP ∈ rule.Filter.AllowedIPs := by
    unfold ipGate
    by_cases h : rule.Filter.AllowedIPs.length > 0
    · rw [if_pos h, ipMatch_iff]
      have : rule.Filter.AllowedIPs ≠ [] := by
        intro hh; rw [hh] at h; simp at h
      simp [this]
    · rw [if_neg h]
      have : rule.Filter.AllowedIPs = [] := by
        cases hl : rule.Filter.AllowedIPs with
        | nil => rfl
        | cons a t => rw [hl] at h; simp at h
      simp [this]
  refine ⟨hiff, fun r srcIface data m now hr hmem hne => ?_⟩
  have hgate : ipGate rule srcIP = false := by
    cases hg : ipGate rule srcIP
    · rfl
    · rcases hiff.mp hg with h2 | h2
      · exact absurd h2 hne
      · exact absurd h2 hmem
  have heval : ∀ (r2 : Reflector) (srcGroup : String) (m2 : Msg)
      (data2 : List Nat),
      (evalRules r2 srcIface srcGroup m2 srcIP data2 now [rule] []).2 = [] := by
    intro r2 srcGroup m2 data2
    simp only [evalRules]
    by_cases hf : rule.From ≠ srcGroup
    · rw [if_pos hf]
    · rw [if_neg hf]
      by_cases ht : typeGate rule m2 = false
      · rw [if_pos ht]
      · rw [if_neg ht, if_pos hgate]
  by_cases h : m.Response = false
  · simp only [handlePacket, if_pos h, hr]
    exact heval _ _ _ _
  · simp only [handlePacket, if_neg h, hr]
    exact heval _ _ _ _

/-- Witness for C8: source `9.9.9.9` against allow-list `["1.2.3.4"]`
produces no forwards. -/
theorem ipGate_admits_iff_witness :
    (handlePacket
        ⟨⟨[], [⟨"a", ["b"], ⟨["1.2.3.4"], []⟩, []⟩]⟩, [("i1", "a")],
          [("b", ["i2"])], []⟩
        "i1" [1] ⟨true, [], ["x"]⟩ "9.9.9.9" 0).2 = [] :=
  (ipGate_admits_iff ⟨"a", ["b"], ⟨["1.2.3.4"], []⟩, []⟩ "9.9.9.9").2
    ⟨⟨[], [⟨"a", ["b"], ⟨["1.2.3.4"], []⟩, []⟩]⟩, [("i1", "a")],
      [("b", ["i2"])], []⟩
    "i1" [1] ⟨true, [], ["x"]⟩ 0 rfl (by decide) (by decide)

/-! ### Claim C7: the service gate -/

theorem svcMatch_iff (services : List String) (name : String) :
    svcMatch services name = true ↔
      ∃ s ∈ services, strContains name s = true := by
  induction services with
  | nil => simp [svcMatch]
  | cons s rest ih =>
    by_cases h : strContains name s
    · simp [svcMatch, h]
    · simp [svcMatch, h, ih]

theorem questionAllowed_iff (services : List String) (q : Question) :
    questionAllowed services q = true ↔
      (∃ s ∈ services, strContains q.Name s = true) ∨
        (strEndsWith q.Name ".local." = true ∧
          strContains q.Name "_" = false) ∨
        strEndsWith q.Name ".in-addr.arpa." = true ∨
        strEndsWith q.Name ".ip6.arpa." = true := by
  unfold questionAllowed
  by_cases h : svcMatch services q.Name = true
  · rw [if_pos h]
    exact iff_of_true rfl (Or.inl ((svcMatch_iff services q.Name).mp h))
  · rw [if_neg h]
    have h3 : ¬∃ s ∈ services, strContains q.Name s = true := by
      intro hc
      exact h ((svcMatch_iff services q.Name).mpr hc)
    simp [h3, Bool.or_eq_true, Bool.and_eq_true, Bool.not_eq_true',
      and_assoc, or_assoc]

theorem anyQuestionAllowed_iff (services : List String) (qs : List Question) :
    anyQuestionAllowed services qs = true ↔
      ∃ q ∈ qs, questionAllowed services q = true := by
  induction qs with
  | nil => simp [anyQuestionAllowed]
  | cons q rest ih =>
    by_cases h : questionAllowed services q
    · simp [anyQuestionAllowed, h]
    · simp [anyQuestionAllowed, h, ih]

theorem anyQuestionAllowed_mutate (services : List String) :
    ∀ qs : List Question,
      anyQuestionAllowed services (mutateQuestions qs).1 =
        anyQuestionAllowed services qs := by
  intro qs
  induction qs with
  | nil => rfl
  | cons q rest ih =>
    simp only [mutateQuestions]
    split
    · show anyQuestionAllowed _ (_ :: _) = _
      simp only [anyQuestionAllowed]
      have : questionAllowed services
          { q with Qclass := q.Qclass &&& 0x7FFF } =
            questionAllowed services q := rfl
      rw [this, ih]
    · simp only [anyQuestionAllowed, ih]

theorem serviceGate_mutate (rule : Rule) (m : Msg) :
    serviceGate rule { m with Question := (mutateQuestions m.Question).1 } =
      serviceGate rule m := by
  unfold serviceGate
  by_cases h : m.Response = false ∧ rule.Filter.AllowedServices.length > 0
  · have h2 : ({ m with Question := (mutateQuestions m.Question).1 } :
        Msg).Response = false ∧
        rule.Filter.AllowedServices.length > 0 := h
    rw [if_pos h, if_pos h2]
    exact anyQuestionAllowed_mutate _ _
  · have h2 : ¬(({ m with Question := (mutateQuestions m.Question).1 } :
        Msg).Response = false ∧
        rule.Filter.AllowedServices.length > 0) := h
    rw [if_neg h, if_neg h2]

/-- Claim C7: under a rule with a non-empty service allow-list, a query is
admitted by the service gate iff some question name contains a listed
substring, or is a plain hostname (`.local.` suffix, no underscore), or is
a reverse lookup (`.in-addr.arpa.` / `.ip6.arpa.` suffix); a plain hostname
query is always admitted; and a query passing none of the alternatives
produces no forwards under that rule. -/
theorem serviceGate_admits_iff (rule : Rule) (m : Msg)
    (h1 : m.Response = false) (h2 : rule.Filter.AllowedServices ≠ []) :
    (serviceGate rule m = true ↔
        ∃ q ∈ m.Question,
          (∃ s ∈ rule.Filter.AllowedServices, strContains q.Name s = true) ∨
            (strEndsWith q.Name ".local." = true ∧
              strContains q.Name "_" = false) ∨
            strEndsWith q.Name ".in-addr.arpa." = true ∨
            strEndsWith q.Name ".ip6.arpa." = true) ∧
      ((∃ q ∈ m.Question, strEndsWith q.Name ".local." = true ∧
          strContains q.Name "_" = false) → serviceGate rule m = true) ∧
      ∀ (r : Reflector) (srcIface : String) (data : List Nat) (srcIP : String)
        (now : Nat),
        r.config.Rules = [rule] → serviceGate rule m = false →
        (handlePacket r srcIface data m srcIP now).2 = [] := by
  have hlen : rule.Filter.AllowedServices.length > 0 := by
    cases hl : rule.Filter.AllowedServices with
    | nil => exact absurd hl h2
    | cons a t => simp
  have hgate : serviceGate rule m =
      anyQuestionAllowed rule.Filter.AllowedServices m.Question := by
    unfold serviceGate
    rw [if_pos ⟨h1, hlen⟩]
  have hiff : serviceGate rule m = true ↔
      ∃ q ∈ m.Question,
        (∃ s ∈ rule.Filter.AllowedServices, strContains q.Name s = true) ∨
          (strEndsWith q.Name ".local." = true ∧
            strContains q.Name "_" = false) ∨
          strEndsWith q.Name ".in-addr.arpa." = true ∨
          strEndsWith q.Name ".ip6.arpa." = true := by
    rw [hgate, anyQuestionAllowed_iff]
    constructor
    · rintro ⟨q, hq, hall⟩
      exact ⟨q, hq, (questionAllowed_iff _ _).mp hall⟩
    · rintro ⟨q, hq, hall⟩
      exact ⟨q, hq, (questionAllowed_iff _ _).mpr hall⟩
  refine ⟨hiff, fun hh => ?_, fun r srcIface data srcIP now hr hfalse => ?_⟩
  · refine hiff.mpr ?_
    obtain ⟨q, hq, hname⟩ := hh
    exact ⟨q, hq, Or.inr (Or.inl hname)⟩
  · have hfalse2 : serviceGate rule
        { m with Question := (mutateQuestions m.Question).1 } = false := by
      rw [serviceGate_mutate]; exact hfalse
    simp only [handlePacket, if_pos h1, hr]
    simp only [evalRules]
    by_cases hf : rule.From ≠ lookupStr r.ifaceMap srcIface
    · rw [if_pos hf]
    · rw [if_neg hf]
      by_cases ht : typeGate rule
          { m with Question := (mutateQuestions m.Question).1 } = false
      · rw [if_pos ht]
      · rw [if_neg ht]
        by_cases hip : ipGate rule srcIP = false
        · rw [if_pos hip]
        · rw [if_neg hip, if_pos hfalse2]

/-- Witness for C7: a plain hostname query is admitted by a service-filtered
rule whose allow-list does not mention it. -/
theorem serviceGate_admits_iff_witness :
    serviceGate ⟨"users", ["g"], ⟨[], ["_air"]⟩, []⟩
      ⟨false, [⟨"host.local.", 1, 1⟩], []⟩ = true :=
  (serviceGate_admits_iff ⟨"users", ["g"], ⟨[], ["_air"]⟩, []⟩
      ⟨false, [⟨"host.local.", 1, 1⟩], []⟩ rfl (by decide)).2.1
    ⟨⟨"host.local.", 1, 1⟩, by decide, by decide, by decide⟩

/-! ### Claim C5: the discovery-window gate of the destination loop -/

theorem windowOpen_iff (rq : List (String × Nat)) (iface : String) (now : Nat) :
    windowOpen rq iface now = true ↔
      ∃ t, lookupTime rq iface = some t ∧ now - t ≤ 60 := by
  unfold windowOpen
  cases h : lookupTime rq iface with
  | none => simp
  | some t => simp

/-- Claim C5: in the destination loop, a candidate interface `d` (distinct
from the source and not yet reflected to) receives a forward iff either the
message is not a response, or the destination group is not `"users"`, or
the discovery-window tracker holds an entry for `d` that is at most
60 seconds old; for non-responses and for other destination groups the
admission is unconditional. -/
theorem reflectDests_admission_iff (srcIface : String) (m : Msg)
    (data : List Nat) (rq : List (String × Nat)) (now : Nat) (g : String)
    (d : String) :
    ∀ (ifaces seen : List String),
      ((⟨d, data⟩ : ForwardCall) ∈
          (reflectDests srcIface m data rq now g ifaces seen).2 ↔
        d ∈ ifaces ∧ d ≠ srcIface ∧ d ∉ seen ∧
          (m.Response = true → g = "users" →
            ∃ t, lookupTime rq d = some t ∧ now - t ≤ 60)) := by
  intro ifaces
  induction ifaces with
  | nil => intro seen; simp [reflectDests]
  | cons e rest ih =>
    intro seen
    simp only [reflectDests]
    by_cases h1 : e = srcIface ∨ e ∈ seen
    · rw [if_pos h1, ih seen]
      constructor
      · rintro ⟨hd, hs, hn, hw⟩
        exact ⟨List.mem_cons_of_mem e hd, hs, hn, hw⟩
      · rintro ⟨hd, hs, hn, hw⟩
        rcases List.mem_cons.mp hd with he | he
        · subst he
          rcases h1 with h1 | h1
          · exact absurd h1 hs
          · exact absurd h1 hn
        · exact ⟨he, hs, hn, hw⟩
    · rw [if_neg h1]
      push_neg at h1
      obtain ⟨hes, hese⟩ := h1
      by_cases h2 : m.Response = true ∧ g = "users" ∧ windowOpen rq e now = false
      · rw [if_pos h2, ih seen]
        constructor
        · rintro ⟨hd, hs, hn, hw⟩
          exact ⟨List.mem_cons_of_mem e hd, hs, hn, hw⟩
        · rintro ⟨hd, hs, hn, hw⟩
          rcases List.mem_cons.mp hd with he | he
          · subst he
            have hop := hw h2.1 h2.2.1
            rw [(windowOpen_iff rq d now).mpr hop] at h2
            exact absurd h2.2.2 (by simp)
          · exact ⟨he, hs, hn, hw⟩
      · rw [if_neg h2]
        simp only [List.mem_cons]
        by_cases hde : d = e
        · subst hde
          constructor
          · intro _
            refine ⟨Or.inl rfl, hes, hese, fun hr hu => ?_⟩
            rcases Bool.eq_false_or_eq_true (windowOpen rq d now) with hw | hw
            · exact (windowOpen_iff rq d now).mp hw
            · exact absurd ⟨hr, hu, hw⟩ h2
          · intro _
            exact Or.inl rfl
        · have hne : (⟨d, data⟩ : ForwardCall) ≠ ⟨e, data⟩ := by
            intro hc
            exact hde (congrArg ForwardCall.iface hc)
          constructor
          · intro hmem
            rcases hmem with hmem | hmem
            · exact absurd hmem hne
            · obtain ⟨hd, hs, hn, hw⟩ := (ih (e :: seen)).mp hmem
              have hn2 : d ∉ seen := fun hc => hn (List.mem_cons_of_mem e hc)
              exact ⟨Or.inr hd, hs, hn2, hw⟩
          · rintro ⟨hd, hs, hn, hw⟩
            rcases hd with hd | hd
            · exact absurd hd hde
            · right
              refine (ih (e :: seen)).mpr ⟨hd, hs, ?_, hw⟩
              intro hc
              rcases List.mem_cons.mp hc with hc | hc
              · exact hde hc
              · exact hn hc

/-! ### Claim C1: destination deduplication in the part_001 pipeline -/

theorem reflectDests_seen_mono (srcIface : String) (m : Msg) (data : List Nat)
    (rq : List (String × Nat)) (now : Nat) (g : String) :
    ∀ (ifaces seen : List String) (x : String), x ∈ seen →
      x ∈ (reflectDests srcIface m data rq now g ifaces seen).1 := by
  intro ifaces
  induction ifaces with
  | nil => intro seen x hx; simpa [reflectDests] using hx
  | cons e rest ih =>
    intro seen x hx
    simp only [reflectDests]
    split
    · exact ih seen x hx
    · split
      · exact ih seen x hx
      · exact ih (e :: seen) x (List.mem_cons_of_mem e hx)

theorem reflectDests_calls_spec (srcIface : String) (m : Msg) (data : List Nat)
    (rq : List (String × Nat)) (now : Nat) (g : String) :
    ∀ (ifaces seen : List String),
      ∀ c ∈ (reflectDests srcIface m data rq now g ifaces seen).2,
        c.iface ∉ seen ∧
          c.iface ∈ (reflectDests srcIface m data rq now g ifaces seen).1 ∧
          c.iface ≠ srcIface := by
  intro ifaces
  induction ifaces with
  | nil => intro seen c hc; simp [reflectDests] at hc
  | cons e rest ih =>
    intro seen c hc
    simp only [reflectDests] at hc ⊢
    split at hc
    · next h1 =>
      rw [if_pos h1]
      exact ih seen c hc
    · next h1 =>
      rw [if_neg h1]
      push_neg at h1
      split at hc
      · next h2 =>
        rw [if_pos h2]
        exact ih seen c hc
      · next h2 =>
        rw [if_neg h2]
        simp only [List.mem_cons] at hc
        rcases hc with hc | hc
        · subst hc
          exact ⟨h1.2, reflectDests_seen_mono srcIface m data rq now g rest
            (e :: seen) e (List.mem_cons_self e seen), h1.1⟩
        · obtain ⟨hn, hm, hs⟩ := ih (e :: seen) c hc
          exact ⟨fun hx => hn (List.mem_cons_of_mem e hx), hm, hs⟩

theorem reflectDests_nodup (srcIface : String) (m : Msg) (data : List Nat)
    (rq : List (String × Nat)) (now : Nat) (g : String) :
    ∀ (ifaces seen : List String),
      ((reflectDests srcIface m data rq now g ifaces seen).2.map
          ForwardCall.iface).Nodup := by
  intro ifaces
  induction ifaces with
  | nil => intro seen; simp [reflectDests]
  | cons e rest ih =>
    intro seen
    simp only [reflectDests]
    split
    · exact ih seen
    · split
      · exact ih seen
      · simp only [List.map_cons, List.nodup_cons]
        refine ⟨?_, ih (e :: seen)⟩
        intro hmem
        obtain ⟨c, hc, hce⟩ := List.mem_map.mp hmem
        have := (reflectDests_calls_spec srcIface m data rq now g rest
          (e :: seen) c hc).1
        rw [hce] at this
        exact this (List.mem_cons_self e seen)

theorem reflectGroups_seen_mono (r : Reflector) (srcIface : String) (m : Msg)
    (data : List Nat) (now : Nat) :
    ∀ (groups seen : List String) (x : String), x ∈ seen →
      x ∈ (reflectGroups r srcIface m data now groups seen).1 := by
  intro groups
  induction groups with
  | nil => intro seen x hx; simpa [reflectGroups] using hx
  | cons g rest ih =>
    intro seen x hx
    simp only [reflectGroups]
    exact ih _ x (reflectDests_seen_mono _ _ _ _ _ _ _ _ x hx)

theorem reflectGroups_calls_spec (r : Reflector) (srcIface : String) (m : Msg)
    (data : List Nat) (now : Nat) :
    ∀ (groups seen : List String),
      ∀ c ∈ (reflectGroups r srcIface m data now groups seen).2,
        c.iface ∉ seen ∧
          c.iface ∈ (reflectGroups r srcIface m data now groups seen).1 ∧
          c.iface ≠ srcIface := by
  intro groups
  induction groups with
  | nil => intro seen c hc; simp [reflectGroups] at hc
  | cons g rest ih =>
    intro seen c hc
    simp only [reflectGroups, List.mem_append] at hc ⊢
    rcases hc with hc | hc
    · obtain ⟨hn, hm, hs⟩ := reflectDests_calls_spec _ _ _ _ _ _ _ _ c hc
      exact ⟨hn, reflectGroups_seen_mono _ _ _ _ _ _ _ _ hm, hs⟩
    · obtain ⟨hn, hm, hs⟩ := ih _ c hc
      refine ⟨fun hx => hn ?_, hm, hs⟩
      exact reflectDests_seen_mono _ _ _ _ _ _ _ _ _ hx

theorem reflectGroups_nodup (r : Reflector) (srcIface : String) (m : Msg)
    (data : List Nat) (now : Nat) :
    ∀ (groups seen : List String),
      ((reflectGroups r srcIface m data now groups seen).2.map
          ForwardCall.iface).Nodup := by
  intro groups
  induction groups with
  | nil => intro seen; simp [reflectGroups]
  | cons g rest ih =>
    intro seen
    simp only [reflectGroups, List.map_append]
    refine List.Nodup.append (reflectDests_nodup _ _ _ _ _ _ _ _) (ih _) ?_
    intro x hx1 hx2
    obtain ⟨c1, hc1, he1⟩ := List.mem_map.mp hx1
    obtain ⟨c2, hc2, he2⟩ := List.mem_map.mp hx2
    have hm1 := (reflectDests_calls_spec _ _ _ _ _ _ _ _ c1 hc1).2.1
    have hn2 := (reflectGroups_calls_spec _ _ _ _ _ _ _ c2 hc2).1
    rw [he1] at hm1
    rw [he2] at hn2
    exact hn2 hm1

theorem evalRules_seen_mono (r : Reflector) (srcIface srcGroup : String)
    (m : Msg) (srcIP : String) (data : List Nat) (now : Nat) :
    ∀ (rules : List Rule) (seen : List String) (x : String), x ∈ seen →
      x ∈ (evalRules r srcIface srcGroup m srcIP data now rules seen).1 := by
  intro rules
  induction rules with
  | nil => intro seen x hx; simpa [evalRules] using hx
  | cons rule rest ih =>
    intro seen x hx
    simp only [evalRules]
    split
    · exact ih seen x hx
    · split
      · exact ih seen x hx
      · split
        · exact ih seen x hx
        · split
          · exact ih seen x hx
          · exact ih _ x (reflectGroups_seen_mono _ _ _ _ _ _ _ x hx)

theorem evalRules_calls_spec (r : Reflector) (srcIface srcGroup : String)
    (m : Msg) (srcIP : String) (data : List Nat) (now : Nat) :
    ∀ (rules : List Rule) (seen : List String),
      ∀ c ∈ (evalRules r srcIface srcGroup m srcIP data now rules seen).2,
        c.iface ∉ seen ∧
          c.iface ∈ (evalRules r srcIface srcGroup m srcIP data now rules
            seen).1 ∧
          c.iface ≠ srcIface := by
  intro rules
  induction rules with
  | nil => intro seen c hc; simp [evalRules] at hc
  | cons rule rest ih =>
    intro seen c hc
    simp only [evalRules] at hc ⊢
    split at hc
    · next h1 => rw [if_pos h1]; exact ih seen c hc
    · next h1 =>
      rw [if_neg h1]
      split at hc
      · next h2 => rw [if_pos h2]; exact ih seen c hc
      · next h2 =>
        rw [if_neg h2]
        split at hc
        · next h3 => rw [if_pos h3]; exact ih seen c hc
        · next h3 =>
          rw [if_neg h3]
          split at hc
          · next h4 => rw [if_pos h4]; exact ih seen c hc
          · next h4 =>
            rw [if_neg h4]
            simp only [List.mem_append] at hc
            rcases hc with hc | hc
            · obtain ⟨hn, hm, hs⟩ := reflectGroups_calls_spec _ _ _ _ _ _ _ c hc
              exact ⟨hn, evalRules_seen_mono _ _ _ _ _ _ _ _ _ _ hm, hs⟩
            · obtain ⟨hn, hm, hs⟩ := ih _ c hc
              refine ⟨fun hx => hn ?_, hm, hs⟩
              exact reflectGroups_seen_mono _ _ _ _ _ _ _ _ hx

theorem evalRules_nodup (r : Reflector) (srcIface srcGroup : String) (m : Msg)
    (srcIP : String) (data : List Nat) (now : Nat) :
    ∀ (rules : List Rule) (seen : List String),
      ((evalRules r srcIface srcGroup m srcIP data now rules seen).2.map
          ForwardCall.iface).Nodup := by
  intro rules
  induction rules with
  | nil => intro seen; simp [evalRules]
  | cons rule rest ih =>
    intro seen
    simp only [evalRules]
    split
    · exact ih seen
    · split
      · exact ih seen
      · split
        · exact ih seen
        · split
          · exact ih seen
          · simp only [List.map_append]
            refine List.Nodup.append (reflectGroups_nodup _ _ _ _ _ _ _)
              (ih _) ?_
            intro x hx1 hx2
            obtain ⟨c1, hc1, he1⟩ := List.mem_map.mp hx1
            obtain ⟨c2, hc2, he2⟩ := List.mem_map.mp hx2
            have hm1 := (reflectGroups_calls_spec _ _ _ _ _ _ _ c1 hc1).2.1
            have hn2 := (evalRules_calls_spec _ _ _ _ _ _ _ _ _ c2 hc2).1
            rw [he1] at hm1
            rw [he2] at hn2
            exact hn2 hm1

/-- Claim C1 (amended): in the part_001 pipeline, whose destination loop
carries the per-packet `reflectedTo` set, the sequence of forward calls of
one ingress packet names each destination interface at most once — however
many rules select it — and never names the packet's source interface.
(The src/main.go revision lacks the set; see the counterexample.) -/
theorem handlePacket_dest_at_most_once (r : Reflector) (srcIface : String)
    (data : List Nat) (m : Msg) (srcIP : String) (now : Nat) :
    (∀ i : String,
        ((handlePacket r srcIface data m srcIP now).2.map
            ForwardCall.iface).count i ≤ 1) ∧
      ∀ c ∈ (handlePacket r srcIface data m srcIP now).2,
        c.iface ≠ srcIface := by
  have key : ∀ (r2 : Reflector) (srcGroup : String) (m2 : Msg)
      (data2 : List Nat),
      (∀ i : String,
        ((evalRules r2 srcIface srcGroup m2 srcIP data2 now r2.config.Rules
            []).2.map ForwardCall.iface).count i ≤ 1) ∧
      ∀ c ∈ (evalRules r2 srcIface srcGroup m2 srcIP data2 now r2.config.Rules
          []).2, c.iface ≠ srcIface := by
    intro r2 srcGroup m2 data2
    constructor
    · intro i
      exact List.nodup_iff_count_le_one.mp
        (evalRules_nodup r2 srcIface srcGroup m2 srcIP data2 now
          r2.config.Rules []) i
    · intro c hc
      exact (evalRules_calls_spec r2 srcIface srcGroup m2 srcIP data2 now
        r2.config.Rules [] c hc).2.2
  by_cases h : m.Response = false
  · simp only [handlePacket, if_pos h]
    exact key _ _ _ _
  · simp only [handlePacket, if_neg h]
    exact key _ _ _ _

/-- Counterexample to claim C1 as stated: in the src/main.go revision
(embedded as `handlePacketLegacy`), two configured rules that both relay
group `a` to group `b` make the handler forward the same packet twice to
interface `i2`. -/
theorem handlePacketLegacy_duplicate_dest :
    ((handlePacketLegacy
        ⟨⟨[], [⟨"a", ["b"], ⟨[], []⟩, []⟩, ⟨"a", ["b"], ⟨[], []⟩, []⟩]⟩,
          [("i1", "a")], [("b", ["i2"])], []⟩
        "i1" [1] ⟨false, [], []⟩ "ip" 0).2.map ForwardCall.iface =
      ["i2", "i2"]) ∧
      ¬((handlePacketLegacy
          ⟨⟨[], [⟨"a", ["b"], ⟨[], []⟩, []⟩, ⟨"a", ["b"], ⟨[], []⟩, []⟩]⟩,
            [("i1", "a")], [("b", ["i2"])], []⟩
          "i1" [1] ⟨false, [], []⟩ "ip" 0).2.map ForwardCall.iface).count
        "i2" ≤ 1 := by
  decide

/-! ### Claim C2: the derived message type in the part_001 pipeline -/

theorem typeGate_congr (rule : Rule) (m1 m2 : Msg)
    (h : m1.Response = m2.Response) : typeGate rule m1 = typeGate rule m2 := by
  unfold typeGate typeNameOf
  rw [h]

theorem serviceGate_congr (rule : Rule) (m1 m2 : Msg)
    (h : m1.Response = m2.Response) (hq : m1.Question = m2.Question) :
    serviceGate rule m1 = serviceGate rule m2 := by
  unfold serviceGate
  rw [h, hq]

theorem reflectDests_msg_congr (srcIface : String) (m1 m2 : Msg)
    (data : List Nat) (rq : List (String × Nat)) (now : Nat) (g : String)
    (h : m1.Response = m2.Response) :
    ∀ (ifaces seen : List String),
      reflectDests srcIface m1 data rq now g ifaces seen =
        reflectDests srcIface m2 data rq now g ifaces seen := by
  intro ifaces
  induction ifaces with
  | nil => intro seen; rfl
  | cons e rest ih =>
    intro seen
    simp only [reflectDests, h, ih]

theorem reflectGroups_msg_congr (r : Reflector) (srcIface : String)
    (m1 m2 : Msg) (data : List Nat) (now : Nat)
    (h : m1.Response = m2.Response) :
    ∀ (groups seen : List String),
      reflectGroups r srcIface m1 data now groups seen =
        reflectGroups r srcIface m2 data now groups seen := by
  intro groups
  induction groups with
  | nil => intro seen; rfl
  | cons g rest ih =>
    intro seen
    simp only [reflectGroups,
      reflectDests_msg_congr srcIface m1 m2 data r.recentQueries now g h, ih]

theorem evalRules_msg_congr (r : Reflector) (srcIface srcGroup : String)
    (m1 m2 : Msg) (srcIP : String) (data : List Nat) (now : Nat)
    (h : m1.Response = m2.Response) (hq : m1.Question = m2.Question) :
    ∀ (rules : List Rule) (seen : List String),
      evalRules r srcIface srcGroup m1 srcIP data now rules seen =
        evalRules r srcIface srcGroup m2 srcIP data now rules seen := by
  intro rules
  induction rules with
  | nil => intro seen; rfl
  | cons rule rest ih =>
    intro seen
    simp only [evalRules, typeGate_congr rule m1 m2 h,
      serviceGate_congr rule m1 m2 h hq,
      reflectGroups_msg_congr r srcIface m1 m2 data now h, ih]

theorem reflectDests_iface_data (srcIface : String) (m : Msg)
    (d1 d2 : List Nat) (rq : List (String × Nat)) (now : Nat) (g : String) :
    ∀ (ifaces seen : List String),
      (reflectDests srcIface m d1 rq now g ifaces seen).1 =
          (reflectDests srcIface m d2 rq now g ifaces seen).1 ∧
        (reflectDests srcIface m d1 rq now g ifaces seen).2.map
            ForwardCall.iface =
          (reflectDests srcIface m d2 rq now g ifaces seen).2.map
            ForwardCall.iface := by
  intro ifaces
  induction ifaces with
  | nil => intro seen; exact ⟨rfl, rfl⟩
  | cons e rest ih =>
    intro seen
    simp only [reflectDests]
    split
    · exact ih seen
    · split
      · exact ih seen
      · obtain ⟨h1, h2⟩ := ih (e :: seen)
        exact ⟨h1, by simp only [List.map_cons, h2]⟩

theorem reflectGroups_iface_data (r : Reflector) (srcIface : String) (m : Msg)
    (d1 d2 : List Nat) (now : Nat) :
    ∀ (groups seen : List String),
      (reflectGroups r srcIface m d1 now groups seen).1 =
          (reflectGroups r srcIface m d2 now groups seen).1 ∧
        (reflectGroups r srcIface m d1 now groups seen).2.map
            ForwardCall.iface =
          (reflectGroups r srcIface m d2 now groups seen).2.map
            ForwardCall.iface := by
  intro groups
  induction groups with
  | nil => intro seen; exact ⟨rfl, rfl⟩
  | cons g rest ih =>
    intro seen
    simp only [reflectGroups, List.map_append]
    obtain ⟨ha1, ha2⟩ := reflectDests_iface_data srcIface m d1 d2
      r.recentQueries now g (lookupGrp r.groupMap g) seen
    rw [ha1]
    obtain ⟨hb1, hb2⟩ := ih ((reflectDests srcIface m d2 r.recentQueries now g
      (lookupGrp r.groupMap g) seen).1)
    exact ⟨hb1, by rw [ha2, hb2]⟩

theorem evalRules_iface_data (r : Reflector) (srcIface srcGroup : String)
    (m : Msg) (srcIP : String) (d1 d2 : List Nat) (now : Nat) :
    ∀ (rules : List Rule) (seen : List String),
      (evalRules r srcIface srcGroup m srcIP d1 now rules seen).1 =
          (evalRules r srcIface srcGroup m srcIP d2 now rules seen).1 ∧
        (evalRules r srcIface srcGroup m srcIP d1 now rules seen).2.map
            ForwardCall.iface =
          (evalRules r srcIface srcGroup m srcIP d2 now rules seen).2.map
            ForwardCall.iface := by
  intro rules
  induction rules with
  | nil => intro seen; exact ⟨rfl, rfl⟩
  | cons rule rest ih =>
    intro seen
    simp only [evalRules]
    split
    · exact ih seen
    · split
      · exact ih seen
      · split
        · exact ih seen
        · split
          · exact ih seen
          · simp only [List.map_append]
            obtain ⟨ha1, ha2⟩ := reflectGroups_iface_data r srcIface m d1 d2
              now rule.To seen
            rw [ha1]
            obtain ⟨hb1, hb2⟩ := ih ((reflectGroups r srcIface m d2 now
              rule.To seen).1)
            exact ⟨hb1, by rw [ha2, hb2]⟩

theorem evalRules_iface_congr (r : Reflector) (srcIface srcGroup : String)
    (m1 m2 : Msg) (srcIP : String) (d1 d2 : List Nat) (now : Nat)
    (h : m1.Response = m2.Response) (hq : m1.Question = m2.Question)
    (rules : List Rule) (seen : List String) :
    (evalRules r srcIface srcGroup m1 srcIP d1 now rules seen).2.map
        ForwardCall.iface =
      (evalRules r srcIface srcGroup m2 srcIP d2 now rules seen).2.map
        ForwardCall.iface := by
  rw [evalRules_msg_congr r srcIface srcGroup m1 m2 srcIP d1 now h hq rules
    seen]
  exact (evalRules_iface_data r srcIface srcGroup m2 srcIP d1 d2 now rules
    seen).2

/-- Claim C2 (amended): in the part_001 pipeline every stage derives the
message type from the header response flag alone, so replacing the answer
section of a message changes neither the resulting reflector state nor the
sequence of destination interfaces forwarded to.  (In the src/main.go
revision the type and window gates instead use "flag OR non-empty answers";
see the counterexample.) -/
theorem handlePacket_answers_never_influence (r : Reflector)
    (srcIface : String) (data : List Nat) (m : Msg) (srcIP : String)
    (now : Nat) (a b : List String) :
    ((handlePacket r srcIface data { m with Answer := a } srcIP now).1 =
        (handlePacket r srcIface data { m with Answer := b } srcIP now).1) ∧
      ((handlePacket r srcIface data { m with Answer := a } srcIP
            now).2.map ForwardCall.iface =
        (handlePacket r srcIface data { m with Answer := b } srcIP
            now).2.map ForwardCall.iface) := by
  by_cases h : m.Response = false
  · have ha : ({ m with Answer := a } : Msg).Response = false := h
    have hb : ({ m with Answer := b } : Msg).Response = false := h
    simp only [handlePacket, if_pos ha, if_pos hb]
    refine ⟨trivial, ?_⟩
    exact evalRules_iface_congr
      { r with recentQueries := setTime r.recentQueries srcIface now }
      srcIface (lookupStr r.ifaceMap srcIface)
      { m with Question := (mutateQuestions m.Question).1, Answer := a }
      { m with Question := (mutateQuestions m.Question).1, Answer := b }
      srcIP _ _ now rfl rfl r.config.Rules []
  · have ha : ¬({ m with Answer := a } : Msg).Response = false := h
    have hb : ¬({ m with Answer := b } : Msg).Response = false := h
    simp only [handlePacket, if_neg ha, if_neg hb]
    refine ⟨trivial, ?_⟩
    exact evalRules_iface_congr r srcIface (lookupStr r.ifaceMap srcIface)
      { m with Answer := a } { m with Answer := b } srcIP data data now rfl rfl
      r.config.Rules []

/-- Counterexample to claim C2 as stated: in the src/main.go revision a
message with the response flag unset but a non-empty answer section is
treated as a response by the type gate (no forward under a query-only
rule) while the query-recording stage simultaneously treats it as a query
(it updates the discovery window) — the derivation is neither flag-only
nor uniform across stages.  The part_001 pipeline forwards the same
message as a query. -/
theorem handlePacketLegacy_answer_classification :
    (⟨false, [], ["x"]⟩ : Msg).Response = false ∧
      (handlePacketLegacy
          ⟨⟨[], [⟨"a", ["b"], ⟨[], []⟩, ["query"]⟩]⟩, [("i1", "a")],
            [("b", ["i2"])], []⟩
          "i1" [1] ⟨false, [], ["x"]⟩ "ip" 5).2 = [] ∧
      (handlePacketLegacy
          ⟨⟨[], [⟨"a", ["b"], ⟨[], []⟩, ["query"]⟩]⟩, [("i1", "a")],
            [("b", ["i2"])], []⟩
          "i1" [1] ⟨false, [], ["x"]⟩ "ip" 5).1.recentQueries = [("i1", 5)] ∧
      (handlePacket
          ⟨⟨[], [⟨"a", ["b"], ⟨[], []⟩, ["query"]⟩]⟩, [("i1", "a")],
            [("b", ["i2"])], []⟩
          "i1" [1] ⟨false, [], ["x"]⟩ "ip" 5).2.map ForwardCall.iface =
        ["i2"] := by
  decide

end MDNS
